import Mathlib

/-!
# Verification development for `library/sdl_wrapper.c`

A shallow embedding of the SDL wrapper of the Flappy Golf clone: the coordinate
mapper (`get_window_center`, `get_scene_scale`, `get_window_position`), the key
code conversion (`get_keycode`), the event poller (`sdl_is_done`), the renderer
(`sdl_draw_polygon`, `sdl_show`, `sdl_render_scene`) and the frame timer
(`time_since_last_tick`).

Conventions of the embedding.

* The coordinates are IEEE 754 binary64 values (`f64`): NaN, the two
  infinities, the two zeros and the non-zero finite values, the latter given by
  their rational value.  Every arithmetic operation takes the exact rational
  result and rounds it to the nearest double, ties to even (`rnd`), with
  gradual underflow and overflow to an infinity.
* Color channels, held times and tick differences are only compared, scaled by
  a constant or divided once; they are kept as rational numbers.
* Machine integers are `Int`/`Nat`; the one place where wrap-around matters
  (the `uint32_t` subtraction of key timestamps) carries an explicit `% 2^32`.
* The non-`static` globals of the C file are the fields of `sdl_globals`;
  functions that read them take the record, functions that write them return
  the new record.
* Calls into SDL that draw or present are recorded, in order, as a list of
  `sdl_call` values; the registered key handler is recorded as a list of
  `handler_call` values.
-/

namespace SdlWrapper

/-! ## Binary64 arithmetic -/

/-- A C `double`: a NaN, an infinity with its sign, a zero with its sign, or a
non-zero finite value.  The operations below only ever build `fin q` for a
non-zero `q` that a double can hold. -/
inductive f64 where
  | nan
  | inf (neg : Bool)
  | zero (neg : Bool)
  | fin (q : ℚ)
deriving DecidableEq

/-- Whether a double is neither a NaN nor an infinity. -/
def f64.is_finite : f64 → Bool
  | .zero _ => true
  | .fin _ => true
  | _ => false

/-- The rational value of a finite double (0 for the zeros; unused otherwise). -/
def f64.val : f64 → ℚ
  | .fin q => q
  | _ => 0

/-- The sign bit of a double. -/
def f64.sign : f64 → Bool
  | .nan => false
  | .inf n => n
  | .zero n => n
  | .fin q => decide (q < 0)

/-- Rounding to the nearest integer, halfway cases to the even neighbour. -/
def round_half_even (x : ℚ) : ℤ :=
  if x - ⌊x⌋ < 1 / 2 then ⌊x⌋
  else if 1 / 2 < x - ⌊x⌋ then ⌊x⌋ + 1
  else if ⌊x⌋ % 2 = 0 then ⌊x⌋ else ⌊x⌋ + 1

/-- The binary exponent `e` with `2^e ≤ |q| < 2^(e+1)`, not below -1022, the
exponent of the smallest normal double (all subnormals share it). -/
def binade (q : ℚ) : ℤ :=
  if q = 0 then -1022 else max (Int.log 2 |q|) (-1022)

/-- The multiple of the unit in the last place `2^(binade q - 52)` nearest to
`q`, ties to the even multiple: `q` rounded to 53 significant bits. -/
def rnd_val (q : ℚ) : ℚ :=
  round_half_even (q / 2 ^ (binade q - 52)) * 2 ^ (binade q - 52)

/-- The double that an operation with exact result `q` delivers (round to
nearest, ties to even).  A result that rounds to zero keeps the sign of `q`, or
has the sign `neg_zero` when `q` itself is zero; a rounded magnitude of `2^1024`
or more overflows to an infinity. -/
def rnd (neg_zero : Bool) (q : ℚ) : f64 :=
  if rnd_val q = 0 then .zero (if q = 0 then neg_zero else decide (q < 0))
  else if 2 ^ 1024 ≤ |rnd_val q| then .inf (decide (q < 0))
  else .fin (rnd_val q)

/-- The C library function `round` on a rational: the nearest integer, halfway
cases away from zero. -/
def c_round (q : ℚ) : ℤ :=
  if 0 ≤ q then ⌊q + 1 / 2⌋ else ⌈q - 1 / 2⌉

/-- Truncation toward zero. -/
def c_trunc (q : ℚ) : ℤ :=
  if 0 ≤ q then ⌊q⌋ else ⌈q⌉

/-- Unary minus. -/
def f64.neg : f64 → f64
  | .nan => .nan
  | .inf n => .inf (!n)
  | .zero n => .zero (!n)
  | .fin q => .fin (-q)

/-- The sum of two doubles.  Opposite infinities give a NaN; an exact zero sum
is `-0` only when both operands are negative (two `-0`). -/
def f64.add (a b : f64) : f64 :=
  match a, b with
  | .nan, _ => .nan
  | _, .nan => .nan
  | .inf n, .inf m => if n = m then .inf n else .nan
  | .inf n, _ => .inf n
  | _, .inf m => .inf m
  | a, b => rnd (a.sign && b.sign) (a.val + b.val)

/-- The difference of two doubles, `a + (-b)`. -/
def f64.sub (a b : f64) : f64 := a.add b.neg

/-- The product of two doubles.  Infinity times zero is a NaN; the sign of a
zero or infinite product is the exclusive or of the signs. -/
def f64.mul (a b : f64) : f64 :=
  match a, b with
  | .nan, _ => .nan
  | _, .nan => .nan
  | .inf _, .zero _ => .nan
  | .zero _, .inf _ => .nan
  | .inf n, b => .inf (xor n b.sign)
  | a, .inf m => .inf (xor a.sign m)
  | a, b => rnd (xor a.sign b.sign) (a.val * b.val)

/-- The quotient of two doubles.  Infinity by infinity and zero by zero are
NaN; a non-zero finite value divided by a zero is an infinity. -/
def f64.div (a b : f64) : f64 :=
  match a, b with
  | .nan, _ => .nan
  | _, .nan => .nan
  | .inf _, .inf _ => .nan
  | .zero _, .zero _ => .nan
  | .inf n, b => .inf (xor n b.sign)
  | a, .inf m => .zero (xor a.sign m)
  | a, .zero m => .inf (xor a.sign m)
  | a, b => rnd (xor a.sign b.sign) (a.val / b.val)

/-- The comparison `a < b` of C: false when an operand is a NaN. -/
def f64.lt (a b : f64) : Bool :=
  match a, b with
  | .nan, _ => false
  | _, .nan => false
  | .inf n, .inf m => n && !m
  | .inf n, _ => n
  | _, .inf m => !m
  | a, b => decide (a.val < b.val)

/-- The comparison `a <= b` of C: false when an operand is a NaN. -/
def f64.le (a b : f64) : Bool :=
  match a, b with
  | .nan, _ => false
  | _, .nan => false
  | .inf n, .inf m => n || !m
  | .inf n, _ => n
  | _, .inf m => !m
  | a, b => decide (a.val ≤ b.val)

/-- The C library function `round` on a double; a value that rounds to zero
keeps its sign. -/
def f64.round : f64 → f64
  | .fin q => if c_round q = 0 then .zero (decide (q < 0)) else .fin (c_round q)
  | a => a

/-- Conversion of an `int` to `double`. -/
def f64.of_int (z : ℤ) : f64 := rnd false z

/-- Conversion of a `double` to `int`: truncation toward zero.  For a NaN, an
infinity or a value outside the range of `int` C leaves the result undefined;
the value given is the one the x86-64 conversion instruction delivers, the most
negative `int`. -/
def f64.to_int : f64 → ℤ
  | .fin q =>
    if -2147483648 ≤ c_trunc q ∧ c_trunc q ≤ 2147483647 then c_trunc q else -2147483648
  | .zero _ => 0
  | _ => -2147483648

/-! ## Vectors -/

/-- Modelled from the spec: the type `vector_t` of `vector.h` (not among the
sources), a pair of scene or pixel coordinates, each a `double`. -/
structure vector_t where
  x : f64
  y : f64
deriving DecidableEq

/-- Modelled from the spec: `vec_add` of `vector.h`, the componentwise sum. -/
def vec_add (v1 v2 : vector_t) : vector_t :=
  { x := v1.x.add v2.x, y := v1.y.add v2.y }

/-- Modelled from the spec: `vec_subtract` of `vector.h`, the componentwise
difference `v1 - v2` (the offset from `v2` to `v1`). -/
def vec_subtract (v1 v2 : vector_t) : vector_t :=
  { x := v1.x.sub v2.x, y := v1.y.sub v2.y }

/-- Modelled from the spec: `vec_multiply` of `vector.h`, scaling by a scalar. -/
def vec_multiply (scalar : f64) (v : vector_t) : vector_t :=
  { x := scalar.mul v.x, y := scalar.mul v.y }

/-! ## Module state -/

/-- The globals of `sdl_wrapper.c` that the modelled functions read or write.
`key_handler` records only whether a handler is registered (`NULL` or not);
`key_start_timestamp` is a `uint32_t`; `last_clock` is a `clock_t`. -/
structure sdl_globals where
  center : vector_t
  max_diff : vector_t
  key_handler : Bool
  key_start_timestamp : Nat
  last_clock : ℤ
deriving DecidableEq

/-- The values of the globals at program start: zero-initialised storage,
`key_handler = NULL`, `last_clock = 0`. -/
def initial_globals : sdl_globals :=
  { center := ⟨.zero false, .zero false⟩, max_diff := ⟨.zero false, .zero false⟩,
    key_handler := false, key_start_timestamp := 0, last_clock := 0 }

/-- The width in pixels of the window `sdl_init` creates (it can be resized). -/
def WINDOW_WIDTH : ℤ := 1000
/-- The height in pixels of the window `sdl_init` creates. -/
def WINDOW_HEIGHT : ℤ := 500
/-- Milliseconds per second, the divisor of key timestamps. -/
def MS_PER_S : ℚ := 1000

/-! ## Coordinate mapper -/

/-- The function `get_window_center`; `width` and `height` are the two integers
that `SDL_GetWindowSize` stores. -/
def get_window_center (width height : ℤ) : vector_t :=
  let dimensions : vector_t := { x := f64.of_int width, y := f64.of_int height }
  vec_multiply (.fin (1 / 2)) dimensions

/-- The function `get_scene_scale`. -/
def get_scene_scale (g : sdl_globals) (window_center : vector_t) : f64 :=
  let x_scale := window_center.x.div g.max_diff.x
  let y_scale := window_center.y.div g.max_diff.y
  if x_scale.lt y_scale then x_scale else y_scale

/-- The function `get_window_position`. -/
def get_window_position (g : sdl_globals) (scene_pos window_center : vector_t) :
    vector_t :=
  let scene_center_offset := vec_subtract scene_pos g.center
  let scale := get_scene_scale g window_center
  let pixel_center_offset := vec_multiply scale scene_center_offset
  { x := (window_center.x.add pixel_center_offset.x).round,
    y := (window_center.y.sub pixel_center_offset.y).round }

/-- The globals after `sdl_init` on the scene rectangle from `(0, 0)` to
`(1000, 500)`, for which the initial window gives scale 1. -/
def full_window_bounds : sdl_globals :=
  { initial_globals with center := ⟨.fin 500, .fin 250⟩, max_diff := ⟨.fin 500, .fin 250⟩ }

/-- The globals after `sdl_init` on the scene rectangle from `(0, 0)` to
`(240, 120)`. -/
def scene_240_120 : sdl_globals :=
  { initial_globals with center := ⟨.fin 120, .fin 60⟩, max_diff := ⟨.fin 120, .fin 60⟩ }

/-- SDL2 key code of the left arrow key (`SDL_keycode.h`): scancode 80 with the
scancode mask `1 << 30`. -/
def SDLK_LEFT : ℤ := 1073741904
/-- SDL2 key code of the up arrow key: scancode 82 with the scancode mask. -/
def SDLK_UP : ℤ := 1073741906
/-- SDL2 key code of the right arrow key: scancode 79 with the scancode mask. -/
def SDLK_RIGHT : ℤ := 1073741903
/-- SDL2 key code of the down arrow key: scancode 81 with the scancode mask. -/
def SDLK_DOWN : ℤ := 1073741905
/-- SDL2 key code of the space bar, the character `' '`. -/
def SDLK_SPACE : ℤ := 32
/-- SDL2 key code of the Q key, the character `'q'`. -/
def SDLK_q : ℤ := 113

/-- Modelled from the spec: the character constants of `sdl_wrapper.h` (not
among the sources) that `get_keycode` returns for the arrow keys, the space bar
and the quit key.  Their values are left open. -/
structure key_constants where
  LEFT_ARROW : ℤ
  UP_ARROW : ℤ
  RIGHT_ARROW : ℤ
  DOWN_ARROW : ℤ
  SPACE : ℤ
  Q_CHARACTER : ℤ

/-- The conversion `(char) key` of a 32-bit key code.  Whether `char` is signed
is fixed by the platform: the value is reduced modulo 256 into `-128..127` when
it is, into `0..255` when it is not. -/
def to_char (char_signed : Bool) (key : ℤ) : ℤ :=
  if char_signed then (key + 128) % 256 - 128 else key % 256

/-- The function `get_keycode`.  The `switch` becomes a chain of tests (the six
labels are distinct, so the order is immaterial); the default branch compares
`key` with `(SDL_Keycode) (char) key` and returns `key` converted to `char`. -/
def get_keycode (kc : key_constants) (char_signed : Bool) (key : ℤ) : ℤ :=
  if key = SDLK_LEFT then kc.LEFT_ARROW
  else if key = SDLK_UP then kc.UP_ARROW
  else if key = SDLK_RIGHT then kc.RIGHT_ARROW
  else if key = SDLK_DOWN then kc.DOWN_ARROW
  else if key = SDLK_SPACE then kc.SPACE
  else if key = SDLK_q then kc.Q_CHARACTER
  else if key = to_char char_signed key then to_char char_signed key
  else 0

/-! ## Event poller -/

/-- The event types `sdl_is_done` distinguishes; every other SDL event type is
`SDL_OTHER`. -/
inductive event_type where
  | SDL_QUIT
  | SDL_KEYDOWN
  | SDL_KEYUP
  | SDL_OTHER
deriving DecidableEq

/-- The fields of `SDL_Event` that `sdl_is_done` reads: `type`, and of the
keyboard member `key.keysym.sym`, `key.timestamp` (a `uint32_t`, milliseconds)
and `key.repeat`. -/
structure SDL_Event where
  type : event_type
  sym : ℤ
  timestamp : ℕ
  key_repeat : Bool
deriving DecidableEq

/-- Modelled from the spec: the type `key_event_type_t` of `sdl_wrapper.h`. -/
inductive key_event_type_t where
  | KEY_PRESSED
  | KEY_RELEASED
deriving DecidableEq

/-- One invocation `key_handler(key, type, held_time, scene)`. -/
structure handler_call where
  key : ℤ
  type : key_event_type_t
  held_time : ℚ
deriving DecidableEq

/-- What one run of `sdl_is_done` leaves behind: the returned flag, the
globals, the events still pending and the handler invocations in order. -/
structure poll_result where
  done : Bool
  globals : sdl_globals
  queue : List SDL_Event
  calls : List handler_call

/-- The function `sdl_is_done`.  `SDL_PollEvent` takes the first pending event
off the queue and returns 0 on an empty queue; the queue is the list of events
pending when the function is entered. -/
def sdl_is_done (kc : key_constants) (char_signed : Bool) :
    sdl_globals → List SDL_Event → poll_result
  | g, [] => { done := false, globals := g, queue := [], calls := [] }
  | g, event :: rest =>
    match event.type with
    | .SDL_QUIT => { done := true, globals := g, queue := rest, calls := [] }
    | .SDL_OTHER => sdl_is_done kc char_signed g rest
    | _ =>
      if g.key_handler = false then sdl_is_done kc char_signed g rest
      else
        let key := get_keycode kc char_signed event.sym
        if key = 0 then sdl_is_done kc char_signed g rest
        else
          let timestamp := event.timestamp
          let g1 : sdl_globals :=
            if !event.key_repeat then { g with key_start_timestamp := timestamp } else g
          let type :=
            if event.type = .SDL_KEYDOWN then key_event_type_t.KEY_PRESSED
            else key_event_type_t.KEY_RELEASED
          let held_time : ℚ :=
            ((((timestamp : ℤ) - (g1.key_start_timestamp : ℤ)) % 2 ^ 32 : ℤ) : ℚ) / MS_PER_S
          let r := sdl_is_done kc char_signed g1 rest
          { r with calls := { key := key, type := type, held_time := held_time } :: r.calls }

/-- The function `sdl_on_key`. -/
def sdl_on_key (g : sdl_globals) (handler : Bool) : sdl_globals :=
  { g with key_handler := handler }

/-! ## Frame timer -/

/-- The function `time_since_last_tick`; `now` is the value `clock()` returns
and `CLOCKS_PER_SEC` the constant of `time.h`.  The result is the returned
difference and the globals after the call. -/
def time_since_last_tick (CLOCKS_PER_SEC : ℤ) (g : sdl_globals) (now : ℤ) :
    ℚ × sdl_globals :=
  let difference : ℚ :=
    if g.last_clock ≠ 0 then ((now - g.last_clock : ℤ) : ℚ) / (CLOCKS_PER_SEC : ℚ)
    else 0
  (difference, { g with last_clock := now })

/-- Successive invocations of `time_since_last_tick`, one per clock reading;
the result lists the returned values in call order. -/
def ticks (CLOCKS_PER_SEC : ℤ) : sdl_globals → List ℤ → List ℚ
  | _, [] => []
  | g, now :: later =>
    (time_since_last_tick CLOCKS_PER_SEC g now).1 ::
      ticks CLOCKS_PER_SEC (time_since_last_tick CLOCKS_PER_SEC g now).2 later

/-! ## Renderer -/

/-- Modelled from the spec: the type `rgb_color_t` of `color.h` (not among the
sources), three channels meant to lie in `[0, 1]`. -/
structure rgb_color_t where
  r : ℚ
  g : ℚ
  b : ℚ
deriving DecidableEq

/-- Modelled from the spec: what the renderer reads of a `body_t` (`body.h` is
not among the sources): `body_get_shape` and `body_get_color`. -/
structure body_t where
  shape : List vector_t
  color : rgb_color_t
deriving DecidableEq

/-- Modelled from the spec: what the renderer reads of a `scene_t` (`scene.h`
is not among the sources): `scene_get_state`, the background elements
(`scene_background_elements`, `scene_get_background_element`), the bodies
(`scene_bodies`, `scene_get_body`), `scene_get_points` and `scene_get_level`,
the last two of type `size_t`. -/
structure scene_t where
  state : ℤ
  background_elements : List body_t
  bodies : List body_t
  points : ℕ
  level : ℕ
deriving DecidableEq

/-- The observable steps of the renderer, in the order they are issued: the
SDL drawing primitives it calls directly, the text and image helpers of this
file (`sdl_load_image`, `center_display`, `point_display`, each one step) and
the two scene setters it invokes. -/
inductive sdl_call where
  | SDL_SetRenderDrawColor (r g b a : ℤ)
  | SDL_RenderClear
  | filledPolygonRGBA (vx vy : List ℤ) (n : ℕ) (r g b a : ℤ)
  | SDL_RenderDrawRect (x y w h : ℤ)
  | SDL_RenderPresent
  | sdl_load_image (filepath : String)
  | scene_set_img
  | body_set_velocity (index : ℕ) (v : vector_t)
  | center_display (message : String) (text_height font_size x_pos width height : ℤ)
      (color : rgb_color_t)
  | point_display (score : String)
deriving DecidableEq

/-- The two ways a rendering call can stop before its end: a failed `assert`,
or a write past the end of a local character buffer. -/
inductive fault where
  | assertion_failed
  | buffer_overflow
deriving DecidableEq

/-- Storing an `int` in an `int16_t`: reduction modulo `2^16` into
`-32768..32767`. -/
def to_int16 (z : ℤ) : ℤ :=
  (z + 32768) % 65536 - 32768

/-- The call `sprintf(buf, "%zu", value)` into a buffer `char buf[size]`: the
decimal digits and the terminating NUL have to fit. -/
def sprintf_zu (size : ℕ) (value : ℕ) : Except fault String :=
  if (Nat.repr value).length + 1 ≤ size then .ok (Nat.repr value)
  else .error .buffer_overflow

/-- The call `strcat(dest, src)` where `dest` is a buffer `char dest[size]`. -/
def strcat (size : ℕ) (dest src : String) : Except fault String :=
  if dest.length + src.length + 1 ≤ size then .ok (dest ++ src)
  else .error .buffer_overflow

/-- The function `sdl_clear`. -/
def sdl_clear : List sdl_call :=
  [.SDL_SetRenderDrawColor 255 255 255 255, .SDL_RenderClear]

/-- The function `sdl_draw_polygon`; `width` and `height` are the window size
read by `get_window_center`. -/
def sdl_draw_polygon (g : sdl_globals) (width height : ℤ) (points : List vector_t)
    (color : rgb_color_t) : Except fault sdl_call :=
  let n := points.length
  if 3 ≤ n ∧ (0 ≤ color.r ∧ color.r ≤ 1) ∧ (0 ≤ color.g ∧ color.g ≤ 1) ∧
      (0 ≤ color.b ∧ color.b ≤ 1) then
    let window_center := get_window_center width height
    let x_points := points.map fun vertex =>
      to_int16 (get_window_position g vertex window_center).x.to_int
    let y_points := points.map fun vertex =>
      to_int16 (get_window_position g vertex window_center).y.to_int
    .ok (.filledPolygonRGBA x_points y_points n
      (c_trunc (color.r * 255)) (c_trunc (color.g * 255)) (c_trunc (color.b * 255)) 255)
  else .error .assertion_failed

/-- The function `sdl_show`. -/
def sdl_show (g : sdl_globals) (width height : ℤ) : List sdl_call :=
  let window_center := get_window_center width height
  let max := vec_add g.center g.max_diff
  let min := vec_subtract g.center g.max_diff
  let max_pixel := get_window_position g max window_center
  let min_pixel := get_window_position g min window_center
  [.SDL_SetRenderDrawColor 0 0 0 255,
   .SDL_RenderDrawRect min_pixel.x.to_int max_pixel.y.to_int
     (max_pixel.x.sub min_pixel.x).to_int (min_pixel.y.sub max_pixel.y).to_int,
   .SDL_RenderPresent]

/-- One of the two drawing loops of `sdl_render_scene`: the bodies are taken in
index order and each is drawn by `sdl_draw_polygon` with its shape and color. -/
def draw_bodies (g : sdl_globals) (width height : ℤ) :
    List body_t → Except fault (List sdl_call)
  | [] => .ok []
  | body :: rest =>
    match sdl_draw_polygon g width height body.shape body.color with
    | .error e => .error e
    | .ok fill =>
      match draw_bodies g width height rest with
      | .error e => .error e
      | .ok fills => .ok (fill :: fills)

/-- The label `"Flaps: "` followed by the points, as built in every branch of
`sdl_render_scene` that shows it: `sprintf` into `score_str[size]`, then
`strcat` onto `str1[100]`. -/
def flaps_label (size : ℕ) (scene : scene_t) : Except fault String :=
  match sprintf_zu size scene.points with
  | .error e => .error e
  | .ok score_str => strcat 100 "Flaps: " score_str

/-- The label `"Level: "` followed by the level: `sprintf` into
`level_str[50]`, then `strcat` onto `str2[100]`. -/
def level_label (scene : scene_t) : Except fault String :=
  match sprintf_zu 50 scene.level with
  | .error e => .error e
  | .ok level_str => strcat 100 "Level: " level_str

/-- The branch `state == 0` of `sdl_render_scene`, up to `point_display`. -/
def render_playing (g : sdl_globals) (width height : ℤ) (scene : scene_t) :
    Except fault (List sdl_call) :=
  match draw_bodies g width height scene.background_elements with
  | .error e => .error e
  | .ok background =>
    match draw_bodies g width height scene.bodies with
    | .error e => .error e
    | .ok bodies =>
      match flaps_label 10 scene with
      | .error e => .error e
      | .ok str1 => .ok (sdl_clear ++ background ++ bodies ++ [.point_display str1])

/-- The branches of `sdl_render_scene` that show a result screen (`state` -1, 1
and 2), after the image and the title: the two labels. -/
def render_labels (rainbows : ℤ → rgb_color_t) (level_x_pos : ℤ) (scene : scene_t) :
    Except fault (List sdl_call) :=
  match flaps_label 50 scene with
  | .error e => .error e
  | .ok str1 =>
    match level_label scene with
    | .error e => .error e
    | .ok str2 =>
      .ok [.center_display str1 140 30 440 130 70 (rainbows 1),
           .center_display str2 190 30 level_x_pos 200 80 (rainbows 1)]

/-- The function `sdl_render_scene`.  `rainbows` is `rgb_color_rainbows` of
`color.h` (not among the sources); `width` and `height` are the window size. -/
def sdl_render_scene (rainbows : ℤ → rgb_color_t) (g : sdl_globals) (width height : ℤ)
    (scene : scene_t) : Except fault (List sdl_call) :=
  let branch : Except fault (List sdl_call) :=
    if scene.state = -5 then
      .ok [.sdl_load_image "../resources/intro_img.png", .scene_set_img,
        .center_display "Welcome to Flappy Golf!" 60 40 320 400 100 (rainbows 3),
        .center_display "Use left & right arrows to control the ball." 190 30 440 130 70
          (rainbows 0),
        .center_display "Press space to start." 280 30 370 250 50 (rainbows 1),
        .center_display "Press 'q' at any time to quit." 320 30 450 200 80 (rainbows 1)]
    else if scene.state = -1 then
      match render_labels rainbows 450 scene with
      | .error e => .error e
      | .ok labels =>
        .ok ([.sdl_load_image "../resources/intro_img.png", .scene_set_img,
          .center_display "You Lost this Level!" 60 40 320 400 100 (rainbows 3)] ++ labels ++
          [.center_display "Press space to retry." 260 30 370 250 50 (rainbows 0)])
    else if scene.state = 1 then
      match render_labels rainbows 450 scene with
      | .error e => .error e
      | .ok labels =>
        .ok ([.sdl_load_image "../resources/intro_img.png", .scene_set_img,
          .body_set_velocity 0 ⟨.zero false, .zero false⟩,
          .center_display "You Win this Level!" 60 40 320 400 100 (rainbows 3)] ++ labels ++
          [.center_display "Press space to retry." 260 30 370 250 50 (rainbows 0),
           .center_display "Press up arrow to continue." 310 30 330 280 45 (rainbows 0)])
    else if scene.state = 0 then render_playing g width height scene
    else if scene.state = 2 then
      match render_labels rainbows 400 scene with
      | .error e => .error e
      | .ok labels =>
        .ok ([.sdl_load_image "../resources/intro_img.png",
          .center_display "You've won all the levels. Good job!" 60 40 320 400 100
            (rainbows 3)] ++ labels ++
          [.center_display "Press space to retry this level." 260 30 370 250 50 (rainbows 0),
           .center_display "Press 'q' to quit." 310 30 330 280 45 (rainbows 0)])
    else .ok []
  match branch with
  | .error e => .error e
  | .ok calls => .ok (sdl_clear ++ calls ++ sdl_show g width height)

/-! ## Reference values used in the statements -/

/-- Whether `sdl_is_done` treats an event as a keyboard event. -/
def is_key_event (e : SDL_Event) : Prop :=
  e.type = .SDL_KEYDOWN ∨ e.type = .SDL_KEYUP

instance is_key_event_decidable (e : SDL_Event) : Decidable (is_key_event e) := by
  unfold is_key_event; infer_instance

/-- A playing scene without bodies whose flap count has ten decimal digits. -/
def billion_flaps : scene_t :=
  { state := 0, background_elements := [], bodies := [], points := 1000000000, level := 1 }

/-- The polygon fill that the spec describes for one body: its shape mapped to
pixels and its color scaled to `0..255`. -/
def body_fill (g : sdl_globals) (width height : ℤ) (body : body_t) : sdl_call :=
  .filledPolygonRGBA
    (body.shape.map fun vertex =>
      to_int16 (get_window_position g vertex (get_window_center width height)).x.to_int)
    (body.shape.map fun vertex =>
      to_int16 (get_window_position g vertex (get_window_center width height)).y.to_int)
    body.shape.length
    (c_trunc (body.color.r * 255)) (c_trunc (body.color.g * 255))
    (c_trunc (body.color.b * 255)) 255

/-- The invariants of the data model on a drawable body: at least three
vertices, color channels in `[0, 1]`. -/
def drawable (body : body_t) : Prop :=
  3 ≤ body.shape.length ∧ (0 ≤ body.color.r ∧ body.color.r ≤ 1) ∧
    (0 ≤ body.color.g ∧ body.color.g ≤ 1) ∧ (0 ≤ body.color.b ∧ body.color.b ≤ 1)

/-- A key-down event, not a repeat, with the given key code at 0 ms. -/
def key_down (sym : ℤ) : SDL_Event :=
  { type := .SDL_KEYDOWN, sym := sym, timestamp := 0, key_repeat := false }

/-- The key codes `get_keycode` is documented to recognize: the four arrow keys
and the 7-bit ASCII values 1 to 127 (space and `q` among them). -/
def recognized_key (key : ℤ) : Prop :=
  key = SDLK_LEFT ∨ key = SDLK_UP ∨ key = SDLK_RIGHT ∨ key = SDLK_DOWN ∨
    (1 ≤ key ∧ key ≤ 127)

instance recognized_key_decidable (key : ℤ) : Decidable (recognized_key key) := by
  unfold recognized_key; infer_instance

/-! ## Auxiliary notions for the proofs -/

/-- A rational that a double can hold, overflow aside: an integer of magnitude
below `2^53` times a power of two not below `2^(-1074)`. -/
def representable (q : ℚ) : Prop :=
  ∃ (m e : ℤ), |m| < 2 ^ 53 ∧ -1074 ≤ e ∧ q = (m : ℚ) * 2 ^ e

/-- The value of a double on the rational line, with the infinities placed at
`2^1024` and `-2^1024`. -/
def f64.clamp : f64 → ℚ
  | .nan => 0
  | .inf n => if n then -(2 ^ 1024) else 2 ^ 1024
  | .zero _ => 0
  | .fin q => q

/-- Not a NaN, and of magnitude below `2^1024` when finite. -/
def f64.ok : f64 → Prop
  | .nan => False
  | .fin q => |q| < 2 ^ 1024
  | _ => True

/-- A rational cut off at `2^1024` and `-2^1024`. -/
def clampfn (v : ℚ) : ℚ := max (-(2 ^ 1024)) (min (2 ^ 1024) v)

/-- Half an `int` as a double: the coordinates of the window center. -/
def f64.half (w : ℤ) : f64 := if w = 0 then .zero false else .fin ((w : ℚ) / 2)

/-! ## Lemmas on rounding -/

theorem round_half_even_intCast (n : ℤ) : round_half_even (n : ℚ) = n := by
  unfold round_half_even
  simp

theorem floor_le_round_half_even (x : ℚ) : ⌊x⌋ ≤ round_half_even x := by
  unfold round_half_even
  split_ifs <;> omega

theorem round_half_even_le_floor_add_one (x : ℚ) : round_half_even x ≤ ⌊x⌋ + 1 := by
  unfold round_half_even
  split_ifs <;> omega

theorem round_half_even_mono {a b : ℚ} (h : a ≤ b) : round_half_even a ≤ round_half_even b := by
  have hfl : ⌊a⌋ ≤ ⌊b⌋ := Int.floor_mono h
  rcases lt_or_eq_of_le hfl with hlt | heq
  · calc round_half_even a ≤ ⌊a⌋ + 1 := round_half_even_le_floor_add_one a
      _ ≤ ⌊b⌋ := hlt
      _ ≤ round_half_even b := floor_le_round_half_even b
  · unfold round_half_even
    rw [heq]
    have hab : a - (⌊b⌋ : ℚ) ≤ b - (⌊b⌋ : ℚ) := by linarith
    split_ifs <;> first | omega | (exfalso; linarith)

theorem round_half_even_le_of_le_intCast {x : ℚ} {n : ℤ} (h : x ≤ n) : round_half_even x ≤ n := by
  have := round_half_even_mono h
  rwa [round_half_even_intCast] at this

theorem le_round_half_even_of_intCast_le {x : ℚ} {n : ℤ} (h : (n : ℚ) ≤ x) : n ≤ round_half_even x := by
  have := round_half_even_mono h
  rwa [round_half_even_intCast] at this

theorem binade_ge (q : ℚ) : -1022 ≤ binade q := by
  unfold binade
  split_ifs
  · exact le_refl _
  · exact le_max_right _ _

theorem abs_lt_two_zpow_binade (q : ℚ) : |q| < 2 ^ (binade q + 1) := by
  unfold binade
  split_ifs with h
  · rw [h]; simp; positivity
  · have h1 := Int.lt_zpow_succ_log_self (R := ℚ) (b := 2) (by norm_num) |q|
    have h2 : ((2 : ℕ) : ℚ) = 2 := by norm_num
    rw [h2] at h1
    refine lt_of_lt_of_le h1 ?_
    apply zpow_le_zpow_right₀ (by norm_num)
    have := le_max_left (Int.log 2 |q|) (-1022)
    omega

theorem two_zpow_binade_le_abs (q : ℚ) (h : -1022 < binade q) : 2 ^ (binade q) ≤ |q| := by
  unfold binade at h ⊢
  split_ifs at h ⊢ with h0
  · omega
  · have hpos : 0 < |q| := abs_pos.mpr h0
    have hmax : max (Int.log 2 |q|) (-1022) = Int.log 2 |q| := by
      rcases le_total (Int.log 2 |q|) (-1022) with hle | hle
      · rw [max_eq_right hle] at h; omega
      · exact max_eq_left hle
    rw [hmax]
    have h1 := Int.zpow_log_le_self (R := ℚ) (b := 2) (by norm_num) hpos
    have h2 : ((2 : ℕ) : ℚ) = 2 := by norm_num
    rwa [h2] at h1

theorem binade_eq_of_bounds (q : ℚ) (e : ℤ) (he : -1022 ≤ e) (h1 : 2 ^ e ≤ |q|)
    (h2 : |q| < 2 ^ (e + 1)) : binade q = e := by
  have hpos : 0 < |q| := lt_of_lt_of_le (by positivity) h1
  have h0 : q ≠ 0 := abs_pos.mp hpos
  have hc : ((2 : ℕ) : ℚ) = 2 := by norm_num
  have hl1 : e ≤ Int.log 2 |q| := by
    rw [← Int.zpow_le_iff_le_log (by norm_num) hpos, hc]; exact h1
  have hl2 : Int.log 2 |q| < e + 1 := by
    rw [← Int.lt_zpow_iff_log_lt (by norm_num) hpos, hc]; exact h2
  unfold binade
  rw [if_neg h0]
  have : Int.log 2 |q| = e := by omega
  rw [this]
  exact max_eq_left he

theorem binade_subnormal (q : ℚ) (h2 : |q| < 2 ^ (-1022 : ℤ)) : binade q = -1022 := by
  unfold binade
  split_ifs with h0
  · rfl
  · have hpos : 0 < |q| := abs_pos.mpr h0
    have hc : ((2 : ℕ) : ℚ) = 2 := by norm_num
    have hl2 : Int.log 2 |q| < -1022 := by
      rw [← Int.lt_zpow_iff_log_lt (by norm_num) hpos, hc]; exact h2
    exact max_eq_right hl2.le


theorem two_zpow_succ_split (E : ℤ) : (2 : ℚ) ^ (E + 1) = ((2 ^ 53 : ℤ) : ℚ) * 2 ^ (E - 52) := by
  have h : E + 1 = 53 + (E - 52) := by ring
  rw [h, zpow_add₀ (by norm_num : (2 : ℚ) ≠ 0)]
  norm_num

theorem two_zpow_split (E : ℤ) : (2 : ℚ) ^ E = ((2 ^ 52 : ℤ) : ℚ) * 2 ^ (E - 52) := by
  have h : E = 52 + (E - 52) := by ring
  nth_rewrite 1 [h]
  rw [zpow_add₀ (by norm_num : (2 : ℚ) ≠ 0)]
  norm_num

theorem ulp_pos (E : ℤ) : (0 : ℚ) < 2 ^ (E - 52) := by positivity

theorem rnd_val_le_two_zpow (q : ℚ) : rnd_val q ≤ 2 ^ (binade q + 1) := by
  unfold rnd_val
  rw [two_zpow_succ_split (binade q)]
  apply mul_le_mul_of_nonneg_right _ (ulp_pos _).le
  have h1 := abs_lt_two_zpow_binade q
  rw [two_zpow_succ_split (binade q)] at h1
  have h2 : q / 2 ^ (binade q - 52) ≤ ((2 ^ 53 : ℤ) : ℚ) := by
    rw [div_le_iff₀ (ulp_pos _)]
    exact le_trans (le_abs_self q) h1.le
  exact_mod_cast round_half_even_le_of_le_intCast h2

theorem neg_two_zpow_le_rnd_val (q : ℚ) : -(2 ^ (binade q + 1)) ≤ rnd_val q := by
  unfold rnd_val
  rw [two_zpow_succ_split (binade q), ← neg_mul]
  apply mul_le_mul_of_nonneg_right _ (ulp_pos _).le
  have h1 := abs_lt_two_zpow_binade q
  rw [two_zpow_succ_split (binade q)] at h1
  have h2 : ((-(2 ^ 53) : ℤ) : ℚ) ≤ q / 2 ^ (binade q - 52) := by
    rw [le_div_iff₀ (ulp_pos _)]
    have := neg_abs_le q
    push_cast
    push_cast at h1
    linarith
  have := le_round_half_even_of_intCast_le h2
  have h3 : ((-(2 ^ 53) : ℤ) : ℚ) ≤ (round_half_even (q / 2 ^ (binade q - 52)) : ℚ) := by
    exact_mod_cast this
  push_cast at h3 ⊢
  linarith

theorem two_zpow_le_rnd_val (q : ℚ) (hq : 0 < q) (hb : -1022 < binade q) :
    2 ^ (binade q) ≤ rnd_val q := by
  unfold rnd_val
  rw [two_zpow_split (binade q)]
  apply mul_le_mul_of_nonneg_right _ (ulp_pos _).le
  have h1 := two_zpow_binade_le_abs q hb
  rw [two_zpow_split (binade q), abs_of_pos hq] at h1
  have h2 : ((2 ^ 52 : ℤ) : ℚ) ≤ q / 2 ^ (binade q - 52) := by
    rw [le_div_iff₀ (ulp_pos _)]
    exact h1
  exact_mod_cast le_round_half_even_of_intCast_le h2

theorem rnd_val_le_neg_two_zpow (q : ℚ) (hq : q < 0) (hb : -1022 < binade q) :
    rnd_val q ≤ -(2 ^ (binade q)) := by
  unfold rnd_val
  rw [two_zpow_split (binade q), ← neg_mul]
  apply mul_le_mul_of_nonneg_right _ (ulp_pos _).le
  have h1 := two_zpow_binade_le_abs q hb
  rw [two_zpow_split (binade q), abs_of_neg hq] at h1
  have h2 : q / 2 ^ (binade q - 52) ≤ ((-(2 ^ 52) : ℤ) : ℚ) := by
    rw [div_le_iff₀ (ulp_pos _)]
    push_cast
    push_cast at h1
    linarith
  have := round_half_even_le_of_le_intCast h2
  have h3 : (round_half_even (q / 2 ^ (binade q - 52)) : ℚ) ≤ ((-(2 ^ 52) : ℤ) : ℚ) := by
    exact_mod_cast this
  push_cast at h3 ⊢
  linarith

theorem rnd_val_mono {a b : ℚ} (h : a ≤ b) : rnd_val a ≤ rnd_val b := by
  rcases lt_trichotomy (binade a) (binade b) with hlt | heq | hgt
  · have hb1 : -1022 < binade b := lt_of_le_of_lt (binade_ge a) hlt
    have h1 := abs_lt_two_zpow_binade a
    have h2 := two_zpow_binade_le_abs b hb1
    have h3 : (2 : ℚ) ^ (binade a + 1) ≤ 2 ^ (binade b) :=
      zpow_le_zpow_right₀ (by norm_num) (by omega)
    have hbpos : 0 < b := by
      by_contra hneg
      push_neg at hneg
      have ha : a ≤ 0 := le_trans h hneg
      rw [abs_of_nonpos ha] at h1
      rw [abs_of_nonpos hneg] at h2
      linarith
    calc rnd_val a ≤ 2 ^ (binade a + 1) := rnd_val_le_two_zpow a
      _ ≤ 2 ^ (binade b) := h3
      _ ≤ rnd_val b := two_zpow_le_rnd_val b hbpos hb1
  · unfold rnd_val
    rw [heq]
    apply mul_le_mul_of_nonneg_right _ (ulp_pos _).le
    have : a / 2 ^ (binade b - 52) ≤ b / 2 ^ (binade b - 52) :=
      div_le_div_of_nonneg_right h (ulp_pos _).le
    exact_mod_cast round_half_even_mono this
  · have ha1 : -1022 < binade a := lt_of_le_of_lt (binade_ge b) hgt
    have h1 := abs_lt_two_zpow_binade b
    have h2 := two_zpow_binade_le_abs a ha1
    have h3 : (2 : ℚ) ^ (binade b + 1) ≤ 2 ^ (binade a) :=
      zpow_le_zpow_right₀ (by norm_num) (by omega)
    have haneg : a < 0 := by
      by_contra hpos
      push_neg at hpos
      have hb : 0 ≤ b := le_trans hpos h
      rw [abs_of_nonneg hb] at h1
      rw [abs_of_nonneg hpos] at h2
      linarith
    calc rnd_val a ≤ -(2 ^ (binade a)) := rnd_val_le_neg_two_zpow a haneg ha1
      _ ≤ -(2 ^ (binade b + 1)) := by linarith
      _ ≤ rnd_val b := neg_two_zpow_le_rnd_val b

theorem rnd_val_of_representable (q : ℚ) (h : representable q) : rnd_val q = q := by
  obtain ⟨m, e, hm, he, rfl⟩ := h
  by_cases h0 : (m : ℚ) * 2 ^ e = 0
  · unfold rnd_val
    rw [h0]
    simp [round_half_even_intCast, show round_half_even 0 = 0 from by
      simpa using round_half_even_intCast 0]
  · have hpos : 0 < |(m : ℚ) * 2 ^ e| := abs_pos.mpr h0
    have hE : binade ((m : ℚ) * 2 ^ e) - 52 ≤ e := by
      unfold binade
      rw [if_neg h0]
      have hc : ((2 : ℕ) : ℚ) = 2 := by norm_num
      have hlt : |(m : ℚ) * 2 ^ e| < 2 ^ (e + 53) := by
        rw [abs_mul, abs_of_pos (by positivity : (0 : ℚ) < 2 ^ e)]
        have hmq : |(m : ℚ)| < 2 ^ 53 := by
          have : ((|m| : ℤ) : ℚ) < ((2 ^ 53 : ℤ) : ℚ) := by exact_mod_cast hm
          simpa using this
        have h53 : (2 : ℚ) ^ (e + 53) = 2 ^ 53 * 2 ^ e := by
          rw [add_comm, zpow_add₀ (by norm_num : (2 : ℚ) ≠ 0)]
          norm_num
        rw [h53]
        exact mul_lt_mul_of_pos_right hmq (by positivity)
      have hlog : Int.log 2 |(m : ℚ) * 2 ^ e| < e + 53 := by
        rw [← Int.lt_zpow_iff_log_lt (by norm_num) hpos, hc]; exact hlt
      rcases le_total (Int.log 2 |(m : ℚ) * 2 ^ e|) (-1022) with hle | hle
      · rw [max_eq_right hle]; omega
      · rw [max_eq_left hle]; omega
    unfold rnd_val
    obtain ⟨k, hk⟩ : ∃ k : ℕ, e = binade ((m : ℚ) * 2 ^ e) - 52 + k :=
      ⟨(e - (binade ((m : ℚ) * 2 ^ e) - 52)).toNat, by omega⟩
    have hdiv : (m : ℚ) * 2 ^ e / 2 ^ (binade ((m : ℚ) * 2 ^ e) - 52) = ((m * 2 ^ k : ℤ) : ℚ) := by
      rw [div_eq_iff (ulp_pos _).ne']
      nth_rewrite 1 [hk]
      rw [zpow_add₀ (by norm_num : (2 : ℚ) ≠ 0)]
      push_cast
      rw [zpow_natCast]
      ring
    rw [hdiv, round_half_even_intCast, ← hdiv]
    exact div_mul_cancel₀ _ (ulp_pos _).ne'

theorem rnd_val_zero : rnd_val 0 = 0 := by
  unfold rnd_val
  simp [show round_half_even 0 = 0 from by simpa using round_half_even_intCast 0]

theorem rnd_val_nonneg {q : ℚ} (h : 0 ≤ q) : 0 ≤ rnd_val q := by
  have := rnd_val_mono h
  rwa [rnd_val_zero] at this

theorem rnd_val_nonpos {q : ℚ} (h : q ≤ 0) : rnd_val q ≤ 0 := by
  have := rnd_val_mono h
  rwa [rnd_val_zero] at this

theorem rnd_zero (z : Bool) : rnd z 0 = .zero z := by
  unfold rnd
  simp [rnd_val_zero]

theorem rnd_exact (z : Bool) (q : ℚ) (hr : representable q) (h0 : q ≠ 0)
    (hB : |q| < 2 ^ 1024) : rnd z q = .fin q := by
  unfold rnd
  rw [rnd_val_of_representable q hr, if_neg h0, if_neg (not_le.mpr hB)]

theorem representable_intCast (z : ℤ) (h : |z| < 2 ^ 53) : representable (z : ℚ) :=
  ⟨z, 0, h, by norm_num, by simp⟩

theorem representable_dyadic (m : ℤ) (k : ℕ) (h : |m| < 2 ^ 53) (hk : k ≤ 1074) :
    representable ((m : ℚ) / 2 ^ k) :=
  ⟨m, -(k : ℤ), h, by omega, by rw [zpow_neg, zpow_natCast]; ring⟩

theorem rnd_ne_nan (z : Bool) (q : ℚ) : rnd z q ≠ .nan := by
  unfold rnd
  split_ifs <;> simp




theorem clampfn_mono {a b : ℚ} (h : a ≤ b) : clampfn a ≤ clampfn b := by
  unfold clampfn
  exact max_le_max (le_refl _) (min_le_min (le_refl _) h)

theorem clampfn_of_abs_lt {v : ℚ} (h : |v| < 2 ^ 1024) : clampfn v = v := by
  unfold clampfn
  obtain ⟨h1, h2⟩ := abs_lt.mp h
  rw [min_eq_right h2.le, max_eq_right h1.le]

theorem rnd_ok (z : Bool) (q : ℚ) : (rnd z q).ok := by
  unfold rnd
  by_cases h1 : rnd_val q = 0
  · rw [if_pos h1]; trivial
  · rw [if_neg h1]
    by_cases h2 : (2 : ℚ) ^ 1024 ≤ |rnd_val q|
    · rw [if_pos h2]; trivial
    · rw [if_neg h2]; exact not_le.mp h2

theorem clamp_rnd (z : Bool) (q : ℚ) : (rnd z q).clamp = clampfn (rnd_val q) := by
  unfold rnd
  by_cases h1 : rnd_val q = 0
  · rw [if_pos h1, h1]; simp [f64.clamp, clampfn]
  rw [if_neg h1]
  by_cases h2 : (2 : ℚ) ^ 1024 ≤ |rnd_val q|
  · rw [if_pos h2]
    by_cases hq : q < 0
    · have hv : rnd_val q ≤ 0 := rnd_val_nonpos hq.le
      rw [abs_of_nonpos hv] at h2
      simp only [f64.clamp, hq, decide_True, if_true]
      unfold clampfn
      rw [min_eq_right (by linarith), max_eq_left (by linarith)]
    · have hv : 0 ≤ rnd_val q := rnd_val_nonneg (not_lt.mp hq)
      rw [abs_of_nonneg hv] at h2
      simp only [f64.clamp, hq, decide_False]
      unfold clampfn
      rw [min_eq_left h2, max_eq_right (by norm_num)]
      simp
  · rw [if_neg h2]
    simp only [f64.clamp]
    exact (clampfn_of_abs_lt (not_le.mp h2)).symm

theorem clamp_le_of_ok {a : f64} (h : a.ok) : a.clamp ≤ 2 ^ 1024 := by
  cases a with
  | nan => exact absurd h id
  | inf n => cases n <;> simp [f64.clamp]
  | zero n => simp [f64.clamp]
  | fin q => exact (abs_lt.mp h).2.le

theorem le_clamp_of_ok {a : f64} (h : a.ok) : -(2 ^ 1024) ≤ a.clamp := by
  cases a with
  | nan => exact absurd h id
  | inf n => cases n <;> simp [f64.clamp]
  | zero n => simp [f64.clamp]
  | fin q => exact (abs_lt.mp h).1.le

theorem le_of_clamp_le {a b : f64} (ha : a.ok) (hb : b.ok) (h : a.clamp ≤ b.clamp) :
    a.le b = true := by
  cases a with
  | nan => exact absurd ha id
  | inf n =>
    cases b with
    | nan => exact absurd hb id
    | inf m =>
      cases n <;> cases m <;> simp [f64.le, f64.clamp] at h ⊢
      linarith [show (0 : ℚ) < 2 ^ 1024 from by positivity]
    | zero m =>
      cases n <;> simp [f64.le, f64.clamp] at h ⊢
      linarith [show (0 : ℚ) < 2 ^ 1024 from by positivity]
    | fin q =>
      cases n <;> simp [f64.le, f64.clamp] at h ⊢
      have := (abs_lt.mp hb).2
      linarith
  | zero n =>
    cases b with
    | nan => exact absurd hb id
    | inf m =>
      cases m <;> simp [f64.le, f64.clamp] at h ⊢
      linarith [show (0 : ℚ) < 2 ^ 1024 from by positivity]
    | zero m => simp [f64.le, f64.val]
    | fin q => simpa [f64.le, f64.val, f64.clamp] using h
  | fin p =>
    cases b with
    | nan => exact absurd hb id
    | inf m =>
      cases m <;> simp [f64.le, f64.clamp] at h ⊢
      have := (abs_lt.mp ha).1
      linarith
    | zero m => simpa [f64.le, f64.val, f64.clamp] using h
    | fin q => simpa [f64.le, f64.val, f64.clamp] using h

theorem c_round_intCast (z : ℤ) : c_round (z : ℚ) = z := by
  unfold c_round
  split_ifs with h
  · rw [Int.floor_eq_iff]
    constructor
    · linarith
    · linarith
  · rw [Int.ceil_eq_iff]
    constructor
    · linarith
    · linarith

theorem f64.add_fin_fin (p q : ℚ) :
    (f64.fin p).add (f64.fin q) = rnd (decide (p < 0) && decide (q < 0)) (p + q) := rfl

theorem f64.add_fin_zero (p : ℚ) (n : Bool) :
    (f64.fin p).add (f64.zero n) = rnd (decide (p < 0) && n) (p + 0) := rfl

theorem f64.add_zero_zero (n m : Bool) :
    (f64.zero n).add (f64.zero m) = rnd (n && m) (0 + 0) := rfl

theorem f64.mul_fin_fin (p q : ℚ) :
    (f64.fin p).mul (f64.fin q) = rnd (xor (decide (p < 0)) (decide (q < 0))) (p * q) := rfl

theorem f64.mul_fin_zero (p : ℚ) (n : Bool) :
    (f64.fin p).mul (f64.zero n) = rnd (xor (decide (p < 0)) n) (p * 0) := rfl

theorem f64.mul_zero_fin (n : Bool) (q : ℚ) :
    (f64.zero n).mul (f64.fin q) = rnd (xor n (decide (q < 0))) (0 * q) := rfl

theorem f64.mul_zero_zero (n m : Bool) :
    (f64.zero n).mul (f64.zero m) = rnd (xor n m) (0 * 0) := rfl

theorem f64.div_fin_fin (p q : ℚ) :
    (f64.fin p).div (f64.fin q) = rnd (xor (decide (p < 0)) (decide (q < 0))) (p / q) := rfl

theorem f64.div_zero_fin (n : Bool) (q : ℚ) :
    (f64.zero n).div (f64.fin q) = rnd (xor n (decide (q < 0))) (0 / q) := rfl

theorem f64.sub_eq (a b : f64) : a.sub b = a.add b.neg := rfl

theorem f64.neg_fin (q : ℚ) : (f64.fin q).neg = f64.fin (-q) := rfl

theorem f64.neg_zero (n : Bool) : (f64.zero n).neg = f64.zero (!n) := rfl

theorem f64.lt_fin_fin (p q : ℚ) : (f64.fin p).lt (f64.fin q) = decide (p < q) := rfl

theorem f64.le_fin_fin (p q : ℚ) : (f64.fin p).le (f64.fin q) = decide (p ≤ q) := rfl

theorem f64.round_fin (q : ℚ) :
    (f64.fin q).round =
      if c_round q = 0 then f64.zero (decide (q < 0)) else f64.fin (c_round q) := rfl

theorem of_int_zero : f64.of_int 0 = .zero false := by
  unfold f64.of_int
  simpa using rnd_zero false

theorem of_int_of_ne_zero (z : ℤ) (h : |z| < 2 ^ 53) (h0 : z ≠ 0) :
    f64.of_int z = .fin z := by
  unfold f64.of_int
  apply rnd_exact false _ (representable_intCast z h) (by exact_mod_cast h0)
  have h1 : |(z : ℚ)| < 2 ^ 53 := by
    have : ((|z| : ℤ) : ℚ) < ((2 ^ 53 : ℤ) : ℚ) := by exact_mod_cast h
    simpa using this
  exact lt_trans h1 (by norm_num)

theorem rnd_half (z : Bool) (w : ℤ) (h : |w| < 2 ^ 53) (h0 : w ≠ 0) :
    rnd z ((w : ℚ) / 2) = .fin ((w : ℚ) / 2) := by
  have hr : representable ((w : ℚ) / 2) := by
    have := representable_dyadic w 1 h (by norm_num)
    simpa using this
  have h1 : |(w : ℚ)| < 2 ^ 53 := by
    have : ((|w| : ℤ) : ℚ) < ((2 ^ 53 : ℤ) : ℚ) := by exact_mod_cast h
    simpa using this
  apply rnd_exact z _ hr
  · have : (w : ℚ) ≠ 0 := by exact_mod_cast h0
    intro hz
    apply this
    linarith
  · rw [abs_div, abs_of_pos (by norm_num : (0 : ℚ) < 2)]
    have : |(w : ℚ)| / 2 ≤ |(w : ℚ)| := by
      have := abs_nonneg (w : ℚ)
      linarith
    exact lt_of_le_of_lt this (lt_trans h1 (by norm_num))

theorem get_window_center_eq (width height : ℤ) (hw : |width| < 2 ^ 53)
    (hh : |height| < 2 ^ 53) :
    get_window_center width height = ⟨f64.half width, f64.half height⟩ := by
  have key : ∀ w : ℤ, |w| < 2 ^ 53 →
      (f64.fin (1 / 2)).mul (f64.of_int w) = f64.half w := by
    intro w h
    unfold f64.half
    by_cases h0 : w = 0
    · rw [if_pos h0, h0, of_int_zero, f64.mul_fin_zero, mul_zero, rnd_zero]
      congr 1
      norm_num
    · rw [if_neg h0, of_int_of_ne_zero w h h0, f64.mul_fin_fin]
      have : (1 : ℚ) / 2 * (w : ℚ) = (w : ℚ) / 2 := by ring
      rw [this]
      exact rnd_half _ w h h0
  unfold get_window_center vec_multiply
  simp only
  rw [key width hw, key height hh]

theorem sub_self_of_finite (a : f64) (h : a.is_finite = true) : a.sub a = .zero false := by
  cases a with
  | nan => simp [f64.is_finite] at h
  | inf n => simp [f64.is_finite] at h
  | zero n =>
    rw [f64.sub_eq, f64.neg_zero, f64.add_zero_zero, add_zero, rnd_zero]
    cases n <;> rfl
  | fin q =>
    rw [f64.sub_eq, f64.neg_fin, f64.add_fin_fin, add_neg_cancel, rnd_zero]
    congr 1
    by_cases hq : q < 0
    · have : ¬ (0 < q) := by linarith
      simp [hq, this]
    · simp [hq]

theorem mul_zero_of_finite (s : f64) (h : s.is_finite = true) (n : Bool) :
    ∃ m, s.mul (.zero n) = .zero m := by
  cases s with
  | nan => simp [f64.is_finite] at h
  | inf k => simp [f64.is_finite] at h
  | zero k => exact ⟨xor k n, by rw [f64.mul_zero_zero, mul_zero, rnd_zero]⟩
  | fin q => exact ⟨xor (decide (q < 0)) n, by rw [f64.mul_fin_zero, mul_zero, rnd_zero]⟩

theorem half_add_zero (w : ℤ) (h : |w| < 2 ^ 53) (n : Bool) :
    (f64.half w).add (.zero n) = f64.half w := by
  unfold f64.half
  by_cases h0 : w = 0
  · rw [if_pos h0, f64.add_zero_zero, add_zero, rnd_zero]
    rfl
  · rw [if_neg h0, f64.add_fin_zero, add_zero]
    exact rnd_half _ w h h0

theorem half_sub_zero (w : ℤ) (h : |w| < 2 ^ 53) (n : Bool) :
    (f64.half w).sub (.zero n) = f64.half w := by
  rw [f64.sub_eq, f64.neg_zero]
  exact half_add_zero w h _

theorem get_window_position_center_eq (g : sdl_globals) (width height : ℤ)
    (hw : |width| < 2 ^ 53) (hh : |height| < 2 ^ 53)
    (hcx : g.center.x.is_finite = true) (hcy : g.center.y.is_finite = true)
    (hs : (get_scene_scale g (get_window_center width height)).is_finite = true) :
    get_window_position g g.center (get_window_center width height) =
      ⟨(get_window_center width height).x.round, (get_window_center width height).y.round⟩ := by
  unfold get_window_position vec_subtract vec_multiply
  simp only
  rw [sub_self_of_finite _ hcx, sub_self_of_finite _ hcy]
  obtain ⟨m1, h1⟩ := mul_zero_of_finite _ hs false
  rw [h1, get_window_center_eq width height hw hh]
  simp only
  rw [half_add_zero width hw, half_sub_zero height hh]

theorem round_half_of_even (k : ℤ) : (f64.half (2 * k)).round = f64.half (2 * k) := by
  unfold f64.half
  by_cases h0 : k = 0
  · rw [h0]; rfl
  · have h2 : 2 * k ≠ 0 := by omega
    rw [if_neg h2]
    have hk : ((2 * k : ℤ) : ℚ) / 2 = (k : ℚ) := by push_cast; ring
    rw [hk]
    rw [f64.round_fin, c_round_intCast, if_neg h0]

theorem lt_iff_clamp_lt {a b : f64} (ha : a.ok) (hb : b.ok) :
    a.lt b = true ↔ a.clamp < b.clamp := by
  have hB : (0 : ℚ) < 2 ^ 1024 := by positivity
  cases a with
  | nan => exact absurd ha id
  | inf n =>
    cases b with
    | nan => exact absurd hb id
    | inf m => cases n <;> cases m <;> simp [f64.lt, f64.clamp]
    | zero m => cases n <;> simp [f64.lt, f64.clamp]
    | fin q =>
      have h1 := (abs_lt.mp hb).1
      have h2 := (abs_lt.mp hb).2
      cases n <;> simp [f64.lt, f64.clamp] <;> try linarith
  | zero n =>
    cases b with
    | nan => exact absurd hb id
    | inf m => cases m <;> simp [f64.lt, f64.clamp]
    | zero m => simp [f64.lt, f64.val, f64.clamp]
    | fin q => simp [f64.lt, f64.val, f64.clamp]
  | fin p =>
    have h1 := (abs_lt.mp ha).1
    have h2 := (abs_lt.mp ha).2
    cases b with
    | nan => exact absurd hb id
    | inf m => cases m <;> simp [f64.lt, f64.clamp] <;> try linarith
    | zero m => simp [f64.lt, f64.val, f64.clamp]
    | fin q => simp [f64.lt, f64.val, f64.clamp]

theorem rnd_dyadic (z : Bool) (m : ℤ) (k : ℕ) (hm : |m| < 2 ^ 53) (hk : k ≤ 1074)
    (h0 : m ≠ 0) : rnd z ((m : ℚ) / 2 ^ k) = .fin ((m : ℚ) / 2 ^ k) := by
  have h1 : |(m : ℚ)| < 2 ^ 53 := by
    have : ((|m| : ℤ) : ℚ) < ((2 ^ 53 : ℤ) : ℚ) := by exact_mod_cast hm
    simpa using this
  have hk0 : (0 : ℚ) < 2 ^ k := by positivity
  apply rnd_exact z _ (representable_dyadic m k hm hk)
  · have : (m : ℚ) ≠ 0 := by exact_mod_cast h0
    exact div_ne_zero this hk0.ne'
  · rw [abs_div, abs_of_pos hk0]
    have h2 : |(m : ℚ)| / 2 ^ k ≤ |(m : ℚ)| := by
      apply div_le_self (abs_nonneg _)
      exact one_le_pow₀ (by norm_num)
    exact lt_of_le_of_lt h2 (lt_trans h1 (by norm_num))

theorem round_half_even_of_gt (x : ℚ) (n : ℤ) (h1 : (n : ℚ) + 1 / 2 < x) (h2 : x < n + 1) :
    round_half_even x = n + 1 := by
  have hfl : ⌊x⌋ = n := by
    rw [Int.floor_eq_iff]
    constructor <;> linarith
  unfold round_half_even
  rw [hfl, if_neg (by linarith), if_pos (by linarith)]

theorem round_half_even_of_lt (x : ℚ) (n : ℤ) (h1 : (n : ℚ) ≤ x) (h2 : x < n + 1 / 2) :
    round_half_even x = n := by
  have hfl : ⌊x⌋ = n := by
    rw [Int.floor_eq_iff]
    constructor <;> linarith
  unfold round_half_even
  rw [hfl, if_pos (by linarith)]

/-- The rounding of a positive rational in the binade `[2^e, 2^(e+1))`, given
the integer that its quotient by the unit `1 / 2^k` (with `k = 52 - e`) rounds
to. -/
theorem rnd_eq_of_round (z : Bool) (q : ℚ) (e : ℤ) (k : ℕ) (n : ℤ) (he : -1022 ≤ e)
    (hk : e - 52 = -(k : ℤ)) (h1 : 2 ^ e ≤ |q|) (h2 : |q| < 2 ^ (e + 1))
    (hn : round_half_even (q * 2 ^ k) = n) (hn0 : n ≠ 0)
    (hB : |(n : ℚ) / 2 ^ k| < 2 ^ 1024) : rnd z q = .fin ((n : ℚ) / 2 ^ k) := by
  have hb := binade_eq_of_bounds q e he h1 h2
  have hv : rnd_val q = (n : ℚ) / 2 ^ k := by
    unfold rnd_val
    rw [hb, hk, zpow_neg, zpow_natCast, div_inv_eq_mul, hn]
    ring
  have hk0 : (0 : ℚ) < 2 ^ k := by positivity
  have hne : (n : ℚ) / 2 ^ k ≠ 0 := by
    have : (n : ℚ) ≠ 0 := by exact_mod_cast hn0
    exact div_ne_zero this hk0.ne'
  unfold rnd
  rw [hv, if_neg hne, if_neg (not_le.mpr hB)]

/-! ## The window center and the sign of the scale -/

theorem half_of_pos (w : ℤ) (h : 0 < w) : f64.half w = .fin ((w : ℚ) / 2) := by
  unfold f64.half
  rw [if_neg (by omega)]

theorem rnd_of_pos (z : Bool) (q : ℚ) (hq : 2 ^ (-1074 : ℤ) ≤ q) :
    rnd z q = .inf false ∨ (rnd z q = .fin (rnd_val q) ∧ 0 < rnd_val q) := by
  have hpos : (0 : ℚ) < 2 ^ (-1074 : ℤ) := by positivity
  have hr : representable (2 ^ (-1074 : ℤ)) := ⟨1, -1074, by norm_num, le_refl _, by simp⟩
  have hv : 2 ^ (-1074 : ℤ) ≤ rnd_val q := by
    have := rnd_val_mono hq
    rwa [rnd_val_of_representable _ hr] at this
  have hv0 : 0 < rnd_val q := lt_of_lt_of_le hpos hv
  have hq0 : ¬ q < 0 := not_lt.mpr (le_trans hpos.le hq)
  unfold rnd
  rw [if_neg hv0.ne']
  by_cases hB : (2 : ℚ) ^ 1024 ≤ |rnd_val q|
  · left
    rw [if_pos hB]
    simp [hq0]
  · right
    rw [if_neg hB]
    exact ⟨rfl, hv0⟩

theorem c_round_half_odd : c_round (1001 / 2) = 501 := by
  unfold c_round
  rw [if_pos (by norm_num), Int.floor_eq_iff]
  constructor <;> norm_num

theorem rnd_one (z : Bool) : rnd z 1 = .fin 1 := by
  have h := rnd_dyadic z 1 0 (by norm_num) (by norm_num) (by norm_num)
  simpa using h

theorem full_window_scale (width : ℤ) (hw : 1000 ≤ width) (hw2 : width < 2 ^ 31) :
    get_scene_scale full_window_bounds (get_window_center width 500) = .fin 1 := by
  have hwc := get_window_center_eq width 500
    (by rw [abs_of_pos (by omega)]; omega) (by norm_num)
  rw [half_of_pos width (by omega), half_of_pos 500 (by norm_num)] at hwc
  have hq : (1 : ℚ) ≤ (width : ℚ) / 2 / 500 := by
    have : (1000 : ℚ) ≤ width := by exact_mod_cast hw
    rw [le_div_iff₀ (by norm_num)]
    linarith
  have hr1 : representable 1 := ⟨1, 0, by norm_num, by norm_num, by simp⟩
  have hv : 1 ≤ rnd_val ((width : ℚ) / 2 / 500) := by
    have := rnd_val_mono hq
    rwa [rnd_val_of_representable 1 hr1] at this
  have h1074 : (2 : ℚ) ^ (-1074 : ℤ) ≤ 1 := by
    rw [zpow_neg]
    norm_num
  have hx := rnd_of_pos (xor (decide ((width : ℚ) / 2 < 0)) (decide ((500 : ℚ) < 0)))
    _ (le_trans h1074 hq)
  have hy : (f64.fin (((500 : ℤ) : ℚ) / 2)).div (f64.fin 250) = .fin 1 := by
    rw [f64.div_fin_fin]
    have : ((500 : ℤ) : ℚ) / 2 / 250 = 1 := by norm_num
    rw [this]
    exact rnd_one _
  unfold get_scene_scale
  simp only [full_window_bounds]
  rw [hwc]
  simp only
  rw [hy, f64.div_fin_fin]
  rcases hx with hx | ⟨hx, _⟩
  · rw [hx]
    rfl
  · rw [hx, f64.lt_fin_fin, if_neg]
    simp only [decide_eq_true_eq, not_lt]
    exact hv

/-- C1, as stated, fails: with the window resized to 1001 by 500 pixels and the
scene rectangle from (0, 0) to (1000, 500), whose half-extents (500, 250) are
positive, the scene center is mapped to pixel x = 501, while the window center
is x = 500.5. -/
theorem scene_center_pixel_counterexample :
    (f64.zero false).lt full_window_bounds.max_diff.x = true ∧
    (f64.zero false).lt full_window_bounds.max_diff.y = true ∧
    get_window_position full_window_bounds full_window_bounds.center
        (get_window_center 1001 500) = ⟨.fin 501, .fin 250⟩ ∧
    get_window_center 1001 500 = ⟨.fin (1001 / 2), .fin 250⟩ ∧
    get_window_position full_window_bounds full_window_bounds.center
        (get_window_center 1001 500) ≠ get_window_center 1001 500 := by
  have hwc : get_window_center 1001 500 = ⟨.fin (1001 / 2), .fin 250⟩ := by
    rw [get_window_center_eq 1001 500 (by norm_num) (by norm_num),
      half_of_pos 1001 (by norm_num), half_of_pos 500 (by norm_num)]
    norm_num
  have hs : (get_scene_scale full_window_bounds (get_window_center 1001 500)).is_finite
      = true := by
    rw [full_window_scale 1001 (by norm_num) (by norm_num)]
    rfl
  have hpix : get_window_position full_window_bounds full_window_bounds.center
      (get_window_center 1001 500) = ⟨.fin 501, .fin 250⟩ := by
    rw [get_window_position_center_eq full_window_bounds 1001 500 (by norm_num)
      (by norm_num) rfl rfl hs, hwc]
    simp only
    rw [f64.round_fin, f64.round_fin, c_round_half_odd]
    have h250 : c_round 250 = 250 := by simpa using c_round_intCast 250
    rw [h250]
    norm_num
  refine ⟨?_, ?_, hpix, hwc, ?_⟩
  · simp [full_window_bounds, f64.lt, f64.val]
  · simp [full_window_bounds, f64.lt, f64.val]
  · rw [hpix, hwc]
    intro h
    have hx := congrArg vector_t.x h
    simp only [f64.fin.injEq] at hx
    norm_num at hx

/-- C1, amended: for every window size (`int` width and height) and every scene
bounds whose center is finite and for which `get_scene_scale` is finite (not
both axis ratios overflow), `get_window_position` maps the scene center to the
window center with each coordinate rounded to the nearest integer (halves away
from zero); when width and height are even this is exactly the window
center. -/
theorem scene_center_pixel (g : sdl_globals) (width height : ℤ)
    (hw : -2 ^ 31 ≤ width ∧ width < 2 ^ 31) (hh : -2 ^ 31 ≤ height ∧ height < 2 ^ 31)
    (hcx : g.center.x.is_finite = true) (hcy : g.center.y.is_finite = true)
    (hs : (get_scene_scale g (get_window_center width height)).is_finite = true) :
    get_window_position g g.center (get_window_center width height) =
        ⟨(get_window_center width height).x.round,
         (get_window_center width height).y.round⟩ ∧
    (2 ∣ width → 2 ∣ height →
      get_window_position g g.center (get_window_center width height) =
        get_window_center width height) := by
  have hw53 : |width| < 2 ^ 53 := by rw [abs_lt]; omega
  have hh53 : |height| < 2 ^ 53 := by rw [abs_lt]; omega
  have hmain := get_window_position_center_eq g width height hw53 hh53 hcx hcy hs
  refine ⟨hmain, ?_⟩
  rintro ⟨a, rfl⟩ ⟨b, rfl⟩
  rw [hmain, get_window_center_eq (2 * a) (2 * b) hw53 hh53]
  simp only
  rw [round_half_of_even, round_half_of_even]

theorem scene_center_pixel_witness :
    get_window_position full_window_bounds full_window_bounds.center
        (get_window_center 1000 500) =
        ⟨(get_window_center 1000 500).x.round, (get_window_center 1000 500).y.round⟩ ∧
    (2 ∣ (1000 : ℤ) → 2 ∣ (500 : ℤ) →
      get_window_position full_window_bounds full_window_bounds.center
        (get_window_center 1000 500) = get_window_center 1000 500) :=
  scene_center_pixel full_window_bounds 1000 500 (by norm_num) (by norm_num) rfl rfl
    (by rw [full_window_scale 1000 (by norm_num) (by norm_num)]; rfl)

theorem window_center_1000_500 : get_window_center 1000 500 = ⟨.fin 500, .fin 250⟩ := by
  rw [get_window_center_eq 1000 500 (by norm_num) (by norm_num),
    half_of_pos 1000 (by norm_num), half_of_pos 500 (by norm_num)]
  norm_num

theorem div_finite_fin (a : f64) (ha : a.is_finite = true) (m : ℚ) :
    ∃ z, a.div (.fin m) = rnd z (a.val / m) := by
  cases a with
  | nan => simp [f64.is_finite] at ha
  | inf k => simp [f64.is_finite] at ha
  | zero k => exact ⟨xor k (decide (m < 0)), by rw [f64.div_zero_fin]; rfl⟩
  | fin p => exact ⟨xor (decide (p < 0)) (decide (m < 0)), by rw [f64.div_fin_fin]; rfl⟩

/-- The clamped value of the scale is the smaller of the clamped values of the
two axis ratios. -/
theorem scene_scale_clamp (g : sdl_globals) (wc : vector_t)
    (hx : (wc.x.div g.max_diff.x).ok) (hy : (wc.y.div g.max_diff.y).ok) :
    (get_scene_scale g wc).ok ∧
    (get_scene_scale g wc).clamp =
      min (wc.x.div g.max_diff.x).clamp (wc.y.div g.max_diff.y).clamp := by
  unfold get_scene_scale
  simp only
  by_cases h : (wc.x.div g.max_diff.x).lt (wc.y.div g.max_diff.y) = true
  · rw [if_pos h]
    exact ⟨hx, (min_eq_left ((lt_iff_clamp_lt hx hy).mp h).le).symm⟩
  · rw [if_neg h]
    have : ¬ (wc.x.div g.max_diff.x).clamp < (wc.y.div g.max_diff.y).clamp :=
      fun hc => h ((lt_iff_clamp_lt hx hy).mpr hc)
    exact ⟨hy, (min_eq_right (not_lt.mp this)).symm⟩

/-- The double nearest to 25/6, the ratio 500/120: it lies above 25/6. -/
theorem rnd_25_6 (z : Bool) (q : ℚ) (hq : q = 25 / 6) :
    rnd z q = .fin (4691249611844267 / 1125899906842624) := by
  subst hq
  have hn : round_half_even ((25 / 6 : ℚ) * 2 ^ 50) = 4691249611844267 := by
    have := round_half_even_of_gt ((25 / 6 : ℚ) * 2 ^ 50) 4691249611844266
      (by norm_num) (by norm_num)
    rw [this]
    norm_num
  have h := rnd_eq_of_round z (25 / 6) 2 50 4691249611844267
    (by norm_num) (by norm_num)
    (by rw [abs_of_pos (by norm_num)]; norm_num)
    (by rw [abs_of_pos (by norm_num)]; norm_num) hn (by norm_num)
    (by rw [abs_of_pos (by norm_num)]; norm_num)
  rw [h]
  norm_num

theorem scale_240_120 :
    get_scene_scale scene_240_120 (get_window_center 1000 500) =
      .fin (4691249611844267 / 1125899906842624) := by
  unfold get_scene_scale
  rw [window_center_1000_500]
  simp only [scene_240_120]
  rw [f64.div_fin_fin, f64.div_fin_fin, rnd_25_6 _ _ (by norm_num),
    rnd_25_6 _ _ (by norm_num), f64.lt_fin_fin, if_neg]
  simp

/-- C4, as stated, fails: for the scene rectangle from (0, 0) to (240, 120),
half-extents (120, 60), in the 1000 by 500 window both axis ratios are 25/6 and
the quotient is rounded up to the double 4691249611844267 / 2^50.  This factor
`s` satisfies `s <= get_scene_scale`, yet `s * 120` exceeds the window center
x = 500, both exactly and as the product of doubles (500 + 2^-44). -/
theorem scene_scale_counterexample :
    (f64.zero false).lt scene_240_120.max_diff.x = true ∧
    (f64.zero false).lt scene_240_120.max_diff.y = true ∧
    get_scene_scale scene_240_120 (get_window_center 1000 500) =
      .fin (4691249611844267 / 1125899906842624) ∧
    (f64.fin (4691249611844267 / 1125899906842624)).le
      (get_scene_scale scene_240_120 (get_window_center 1000 500)) = true ∧
    ¬ ((4691249611844267 / 1125899906842624 : ℚ) * 120 ≤ 500) ∧
    ((f64.fin (4691249611844267 / 1125899906842624)).mul scene_240_120.max_diff.x).le
      (get_window_center 1000 500).x = false := by
  have hprod : (f64.fin (4691249611844267 / 1125899906842624)).mul (f64.fin 120) =
      .fin (8796093022208001 / 17592186044416) := by
    rw [f64.mul_fin_fin]
    have e : (4691249611844267 / 1125899906842624 : ℚ) * 120 =
        70368744177664005 / 140737488355328 := by norm_num
    rw [e]
    have hn : round_half_even ((70368744177664005 / 140737488355328 : ℚ) * 2 ^ 44) =
        8796093022208001 := by
      have := round_half_even_of_gt ((70368744177664005 / 140737488355328 : ℚ) * 2 ^ 44)
        8796093022208000 (by norm_num) (by norm_num)
      rw [this]
      norm_num
    have h := rnd_eq_of_round (xor (decide ((4691249611844267 / 1125899906842624 : ℚ) < 0))
      (decide ((120 : ℚ) < 0))) (70368744177664005 / 140737488355328) 8 44 8796093022208001
      (by norm_num) (by norm_num)
      (by rw [abs_of_pos (by norm_num)]; norm_num)
      (by rw [abs_of_pos (by norm_num)]; norm_num) hn (by norm_num)
      (by rw [abs_of_pos (by norm_num)]; norm_num)
    rw [h]
    norm_num
  refine ⟨?_, ?_, scale_240_120, ?_, by norm_num, ?_⟩
  · simp [scene_240_120, f64.lt, f64.val]
  · simp [scene_240_120, f64.lt, f64.val]
  · rw [scale_240_120, f64.le_fin_fin]
    simp
  · rw [window_center_1000_500]
    simp only [scene_240_120]
    rw [hprod, f64.le_fin_fin]
    norm_num

/-- C4, amended: for every finite window center and positive finite
half-extents, `get_scene_scale` is the smaller of the two axis ratios as
computed in doubles (each quotient rounded to the nearest double): it is one of
them and at most both.  Among the finite doubles `s`, every one that keeps both
scaled half-extents within the window center (products taken exactly) is at
most `get_scene_scale`, and every one below `get_scene_scale` keeps them
within; the scale itself may exceed the bound by the rounding of the
quotient. -/
theorem scene_scale_is_largest_fit (g : sdl_globals) (window_center : vector_t) (mx my : ℚ)
    (hmx : g.max_diff.x = .fin mx) (hmx0 : 0 < mx)
    (hmy : g.max_diff.y = .fin my) (hmy0 : 0 < my)
    (hwx : window_center.x.is_finite = true) (hwy : window_center.y.is_finite = true) :
    (get_scene_scale g window_center = window_center.x.div g.max_diff.x ∨
      get_scene_scale g window_center = window_center.y.div g.max_diff.y) ∧
    (get_scene_scale g window_center).le (window_center.x.div g.max_diff.x) = true ∧
    (get_scene_scale g window_center).le (window_center.y.div g.max_diff.y) = true ∧
    ∀ s : f64, s.is_finite = true → rnd s.sign s.val = s →
      ((s.val * mx ≤ window_center.x.val ∧ s.val * my ≤ window_center.y.val →
          s.le (get_scene_scale g window_center) = true) ∧
       (s.lt (get_scene_scale g window_center) = true →
          s.val * mx ≤ window_center.x.val ∧ s.val * my ≤ window_center.y.val)) := by
  obtain ⟨zx, hdx⟩ := div_finite_fin window_center.x hwx mx
  obtain ⟨zy, hdy⟩ := div_finite_fin window_center.y hwy my
  have hxok : (window_center.x.div g.max_diff.x).ok := by
    rw [hmx, hdx]; exact rnd_ok _ _
  have hyok : (window_center.y.div g.max_diff.y).ok := by
    rw [hmy, hdy]; exact rnd_ok _ _
  obtain ⟨hsok, hscl⟩ := scene_scale_clamp g window_center hxok hyok
  have hxcl : (window_center.x.div g.max_diff.x).clamp =
      clampfn (rnd_val (window_center.x.val / mx)) := by
    rw [hmx, hdx, clamp_rnd]
  have hycl : (window_center.y.div g.max_diff.y).clamp =
      clampfn (rnd_val (window_center.y.val / my)) := by
    rw [hmy, hdy, clamp_rnd]
  refine ⟨?_, ?_, ?_, ?_⟩
  · unfold get_scene_scale
    simp only
    split_ifs
    · exact Or.inl rfl
    · exact Or.inr rfl
  · apply le_of_clamp_le hsok hxok
    rw [hscl]
    exact min_le_left _ _
  · apply le_of_clamp_le hsok hyok
    rw [hscl]
    exact min_le_right _ _
  · intro s _ hsd
    have hsokk : s.ok := by rw [← hsd]; exact rnd_ok _ _
    have hscl' : s.clamp = clampfn (rnd_val s.val) := by
      have := clamp_rnd s.sign s.val
      rwa [hsd] at this
    constructor
    · rintro ⟨h1, h2⟩
      apply le_of_clamp_le hsokk hsok
      rw [hscl, hxcl, hycl, hscl']
      apply le_min
      · exact clampfn_mono (rnd_val_mono ((le_div_iff₀ hmx0).mpr h1))
      · exact clampfn_mono (rnd_val_mono ((le_div_iff₀ hmy0).mpr h2))
    · intro hlt
      have hc := (lt_iff_clamp_lt hsokk hsok).mp hlt
      rw [hscl, hxcl, hycl, hscl'] at hc
      constructor
      · by_contra hcon
        push_neg at hcon
        have : window_center.x.val / mx ≤ s.val := by
          rw [div_le_iff₀ hmx0]; exact hcon.le
        have := clampfn_mono (rnd_val_mono this)
        have := lt_of_lt_of_le hc (min_le_left _ _)
        linarith
      · by_contra hcon
        push_neg at hcon
        have : window_center.y.val / my ≤ s.val := by
          rw [div_le_iff₀ hmy0]; exact hcon.le
        have := clampfn_mono (rnd_val_mono this)
        have := lt_of_lt_of_le hc (min_le_right _ _)
        linarith

theorem scene_scale_is_largest_fit_witness :
    (get_scene_scale scene_240_120 (get_window_center 1000 500) =
        (get_window_center 1000 500).x.div scene_240_120.max_diff.x ∨
      get_scene_scale scene_240_120 (get_window_center 1000 500) =
        (get_window_center 1000 500).y.div scene_240_120.max_diff.y) ∧
    (get_scene_scale scene_240_120 (get_window_center 1000 500)).le
      ((get_window_center 1000 500).x.div scene_240_120.max_diff.x) = true ∧
    (get_scene_scale scene_240_120 (get_window_center 1000 500)).le
      ((get_window_center 1000 500).y.div scene_240_120.max_diff.y) = true ∧
    ∀ s : f64, s.is_finite = true → rnd s.sign s.val = s →
      ((s.val * 120 ≤ (get_window_center 1000 500).x.val ∧
          s.val * 60 ≤ (get_window_center 1000 500).y.val →
          s.le (get_scene_scale scene_240_120 (get_window_center 1000 500)) = true) ∧
       (s.lt (get_scene_scale scene_240_120 (get_window_center 1000 500)) = true →
          s.val * 120 ≤ (get_window_center 1000 500).x.val ∧
          s.val * 60 ≤ (get_window_center 1000 500).y.val)) :=
  scene_scale_is_largest_fit scene_240_120 (get_window_center 1000 500) 120 60
    rfl (by norm_num) rfl (by norm_num)
    (by rw [window_center_1000_500]; rfl) (by rw [window_center_1000_500]; rfl)

/-! ## The frame timer -/

theorem time_since_last_tick_of_ne_zero (CLOCKS_PER_SEC : ℤ) (g : sdl_globals) (now : ℤ)
    (h : g.last_clock ≠ 0) :
    time_since_last_tick CLOCKS_PER_SEC g now =
      (((now - g.last_clock : ℤ) : ℚ) / (CLOCKS_PER_SEC : ℚ), { g with last_clock := now }) := by
  unfold time_since_last_tick
  rw [if_pos h]

theorem time_since_last_tick_of_eq_zero (CLOCKS_PER_SEC : ℤ) (g : sdl_globals) (now : ℤ)
    (h : g.last_clock = 0) :
    time_since_last_tick CLOCKS_PER_SEC g now = (0, { g with last_clock := now }) := by
  unfold time_since_last_tick
  simp [h]

/-- C5: when `last_clock` still has its initial value 0, `time_since_last_tick`
returns 0 whatever `clock()` returns, and stores that reading in `last_clock`
(the other globals are unchanged). -/
theorem first_tick_is_zero (CLOCKS_PER_SEC : ℤ) (g : sdl_globals) (now : ℤ)
    (h : g.last_clock = 0) :
    (time_since_last_tick CLOCKS_PER_SEC g now).1 = 0 ∧
    (time_since_last_tick CLOCKS_PER_SEC g now).2 = { g with last_clock := now } := by
  rw [time_since_last_tick_of_eq_zero CLOCKS_PER_SEC g now h]
  exact ⟨rfl, rfl⟩

theorem first_tick_is_zero_witness :
    (time_since_last_tick 1000000 initial_globals 123456).1 = 0 ∧
    (time_since_last_tick 1000000 initial_globals 123456).2 =
      { initial_globals with last_clock := 123456 } :=
  first_tick_is_zero 1000000 initial_globals 123456 rfl

/-- Once a non-zero reading is stored, and as long as the readings stay
non-zero, every invocation returns the difference to the previous reading
divided by `CLOCKS_PER_SEC`. -/
theorem ticks_of_ne_zero (CLOCKS_PER_SEC : ℤ) (g : sdl_globals) (h : g.last_clock ≠ 0)
    (readings : List ℤ) (hr : ∀ c ∈ readings, c ≠ 0) :
    ticks CLOCKS_PER_SEC g readings =
      List.zipWith (fun prev cur => ((cur - prev : ℤ) : ℚ) / (CLOCKS_PER_SEC : ℚ))
        (g.last_clock :: readings) readings := by
  induction readings generalizing g with
  | nil => rfl
  | cons c rest ih =>
    have hc := hr c (List.mem_cons_self _ _)
    simp only [ticks, List.zipWith_cons_cons]
    rw [time_since_last_tick_of_ne_zero CLOCKS_PER_SEC g c h]
    simp only
    rw [ih { g with last_clock := c } hc (fun x hx => hr x (List.mem_cons_of_mem _ hx))]

/-- C6, evaluated where the code departs from it: when the first `clock()`
reading is 0 and the second is 5000, the second invocation returns 0, not the
elapsed 5000 / CLOCKS_PER_SEC = 1/200 seconds; the third invocation, whose
previous reading is not 0, does return the elapsed time. -/
theorem second_tick_after_zero_reading :
    ticks 1000000 initial_globals [0, 5000, 7000] = [0, 0, 1 / 500] ∧
    (((5000 - 0 : ℤ) : ℚ) / ((1000000 : ℤ) : ℚ) ≠ 0) := by
  constructor
  · simp only [ticks]
    rw [time_since_last_tick_of_eq_zero 1000000 initial_globals 0 rfl]
    simp only
    rw [time_since_last_tick_of_eq_zero 1000000 { initial_globals with last_clock := 0 } 5000 rfl]
    simp only
    rw [time_since_last_tick_of_ne_zero 1000000 _ 7000 (by decide)]
    norm_num
  · norm_num


/-! ## Key codes and the event poller -/

theorem sdl_is_done_nil (kc : key_constants) (sgn : Bool) (g : sdl_globals) :
    sdl_is_done kc sgn g [] = { done := false, globals := g, queue := [], calls := [] } := by
  simp [sdl_is_done]

theorem sdl_is_done_quit (kc : key_constants) (sgn : Bool) (g : sdl_globals)
    (e : SDL_Event) (rest : List SDL_Event) (h : e.type = .SDL_QUIT) :
    sdl_is_done kc sgn g (e :: rest) =
      { done := true, globals := g, queue := rest, calls := [] } := by
  simp [sdl_is_done, h]

theorem sdl_is_done_other (kc : key_constants) (sgn : Bool) (g : sdl_globals)
    (e : SDL_Event) (rest : List SDL_Event) (h : e.type = .SDL_OTHER) :
    sdl_is_done kc sgn g (e :: rest) = sdl_is_done kc sgn g rest := by
  simp [sdl_is_done, h]

theorem sdl_is_done_no_handler (kc : key_constants) (sgn : Bool) (g : sdl_globals)
    (e : SDL_Event) (rest : List SDL_Event) (h : is_key_event e)
    (hh : g.key_handler = false) :
    sdl_is_done kc sgn g (e :: rest) = sdl_is_done kc sgn g rest := by
  rcases h with h | h <;> simp [sdl_is_done, h, hh]

theorem sdl_is_done_unrecognized (kc : key_constants) (sgn : Bool) (g : sdl_globals)
    (e : SDL_Event) (rest : List SDL_Event) (h : is_key_event e)
    (hk : get_keycode kc sgn e.sym = 0) :
    sdl_is_done kc sgn g (e :: rest) = sdl_is_done kc sgn g rest := by
  rcases h with h | h <;> simp [sdl_is_done, h, hk]

theorem sdl_is_done_key (kc : key_constants) (sgn : Bool) (g : sdl_globals)
    (e : SDL_Event) (rest : List SDL_Event) (h : is_key_event e)
    (hh : g.key_handler = true) (hk : get_keycode kc sgn e.sym ≠ 0) :
    sdl_is_done kc sgn g (e :: rest) =
      { sdl_is_done kc sgn
          (if !e.key_repeat then { g with key_start_timestamp := e.timestamp } else g) rest with
        calls :=
          { key := get_keycode kc sgn e.sym,
            type := if e.type = .SDL_KEYDOWN then .KEY_PRESSED else .KEY_RELEASED,
            held_time :=
              ((((e.timestamp : ℤ) -
                ((if !e.key_repeat then { g with key_start_timestamp := e.timestamp }
                  else g).key_start_timestamp : ℤ)) % 2 ^ 32 : ℤ) : ℚ) / MS_PER_S } ::
          (sdl_is_done kc sgn
            (if !e.key_repeat then { g with key_start_timestamp := e.timestamp } else g)
            rest).calls } := by
  rcases h with h | h <;> simp [sdl_is_done, h, hh, hk]


theorem sdl_is_done_cons_of_not_quit (kc : key_constants) (sgn : Bool) (g : sdl_globals)
    (e : SDL_Event) (rest : List SDL_Event) (h : e.type ≠ .SDL_QUIT) :
    ∃ g1, (sdl_is_done kc sgn g (e :: rest)).done = (sdl_is_done kc sgn g1 rest).done ∧
      (sdl_is_done kc sgn g (e :: rest)).queue = (sdl_is_done kc sgn g1 rest).queue := by
  by_cases hk : is_key_event e
  · by_cases hh : g.key_handler = true
    · by_cases hc : get_keycode kc sgn e.sym = 0
      · exact ⟨g, by rw [sdl_is_done_unrecognized kc sgn g e rest hk hc]; exact ⟨rfl, rfl⟩⟩
      · exact ⟨_, by rw [sdl_is_done_key kc sgn g e rest hk hh hc]; exact ⟨rfl, rfl⟩⟩
    · have hf : g.key_handler = false := by simpa using hh
      exact ⟨g, by rw [sdl_is_done_no_handler kc sgn g e rest hk hf]; exact ⟨rfl, rfl⟩⟩
  · have ho : e.type = .SDL_OTHER := by
      unfold is_key_event at hk
      cases ht : e.type <;> simp_all
    exact ⟨g, by rw [sdl_is_done_other kc sgn g e rest ho]; exact ⟨rfl, rfl⟩⟩

/-- C9: for every list of pending events, `sdl_is_done` returns true exactly
when the list contains a quit event; when it contains none, the function
returns false and no event is left pending. -/
theorem sdl_is_done_iff_quit (kc : key_constants) (sgn : Bool) (g : sdl_globals)
    (queue : List SDL_Event) :
    ((sdl_is_done kc sgn g queue).done = true ↔ ∃ e ∈ queue, e.type = .SDL_QUIT) ∧
    ((∀ e ∈ queue, e.type ≠ .SDL_QUIT) →
      (sdl_is_done kc sgn g queue).done = false ∧ (sdl_is_done kc sgn g queue).queue = []) := by
  induction queue generalizing g with
  | nil => simp [sdl_is_done_nil]
  | cons e rest ih =>
    by_cases hq : e.type = .SDL_QUIT
    · rw [sdl_is_done_quit kc sgn g e rest hq]
      constructor
      · simp only [true_iff]
        exact ⟨e, List.mem_cons_self _ _, hq⟩
      · intro hall
        exact absurd hq (hall e (List.mem_cons_self _ _))
    · obtain ⟨g1, hd, hr⟩ := sdl_is_done_cons_of_not_quit kc sgn g e rest hq
      rw [hd, hr]
      obtain ⟨ih1, ih2⟩ := ih g1
      constructor
      · rw [ih1]
        constructor
        · rintro ⟨x, hx, hxq⟩
          exact ⟨x, List.mem_cons_of_mem _ hx, hxq⟩
        · rintro ⟨x, hx, hxq⟩
          rcases List.mem_cons.mp hx with rfl | hx
          · exact absurd hxq hq
          · exact ⟨x, hx, hxq⟩
      · intro hall
        exact ih2 (fun x hx => hall x (List.mem_cons_of_mem _ hx))

/-- The handler is never invoked with the key `'\0'`. -/
theorem handler_key_ne_zero (kc : key_constants) (sgn : Bool) (g : sdl_globals)
    (queue : List SDL_Event) :
    ∀ c ∈ (sdl_is_done kc sgn g queue).calls, c.key ≠ 0 := by
  induction queue generalizing g with
  | nil => simp [sdl_is_done_nil]
  | cons e rest ih =>
    by_cases hq : e.type = .SDL_QUIT
    · rw [sdl_is_done_quit kc sgn g e rest hq]; simp
    · by_cases hk : is_key_event e
      · by_cases hh : g.key_handler = true
        · by_cases hc : get_keycode kc sgn e.sym = 0
          · rw [sdl_is_done_unrecognized kc sgn g e rest hk hc]; exact ih g
          · rw [sdl_is_done_key kc sgn g e rest hk hh hc]
            intro c hcm
            rcases List.mem_cons.mp hcm with rfl | hcm
            · exact hc
            · exact ih _ c hcm
        · have hf : g.key_handler = false := by simpa using hh
          rw [sdl_is_done_no_handler kc sgn g e rest hk hf]; exact ih g
      · have ho : e.type = .SDL_OTHER := by
          unfold is_key_event at hk
          cases ht : e.type <;> simp_all
        rw [sdl_is_done_other kc sgn g e rest ho]; exact ih g

/-- On key codes that are not negative, `get_keycode` with a signed `char`
returns `'\0'` for every key outside the arrows and the values 1 to 127, and
the event reaches no handler. -/
theorem get_keycode_unrecognized_of_nonneg (kc : key_constants) (g : sdl_globals)
    (e : SDL_Event) (rest : List SDL_Event) (hk : is_key_event e)
    (hun : ¬ recognized_key e.sym) (h0 : 0 ≤ e.sym) :
    get_keycode kc true e.sym = 0 ∧
    sdl_is_done kc true g (e :: rest) = sdl_is_done kc true g rest := by
  have hz : get_keycode kc true e.sym = 0 := by
    unfold recognized_key at hun
    push_neg at hun
    obtain ⟨h1, h2, h3, h4, h5⟩ := hun
    unfold get_keycode
    rw [if_neg h1, if_neg h2, if_neg h3, if_neg h4]
    have hs : e.sym ≠ SDLK_SPACE := by
      intro hs; rw [hs] at h5; exact absurd (h5 (by decide)) (by decide)
    have hq : e.sym ≠ SDLK_q := by
      intro hs; rw [hs] at h5; exact absurd (h5 (by decide)) (by decide)
    rw [if_neg hs, if_neg hq]
    unfold to_char
    simp only [if_true]
    split_ifs with hc
    · by_cases h1' : 1 ≤ e.sym
      · have := h5 h1'
        omega
      · omega
    · rfl
  exact ⟨hz, sdl_is_done_unrecognized kc true g e rest hk hz⟩

/-- C8, evaluated where the code departs from it.  The key code -1 is neither an
arrow key nor in 1..127, yet with a signed `char` `get_keycode` returns it
unchanged (not `'\0'`) and `sdl_is_done` passes it to the handler; with an
unsigned `char` the same happens for the key code 233. -/
theorem get_keycode_passes_non_ascii (kc : key_constants) :
    (¬ recognized_key (-1) ∧ get_keycode kc true (-1) = -1 ∧
      (sdl_is_done kc true (sdl_on_key initial_globals true) [key_down (-1)]).calls =
        [{ key := -1, type := .KEY_PRESSED, held_time := 0 }]) ∧
    (¬ recognized_key 233 ∧ get_keycode kc false 233 = 233 ∧
      (sdl_is_done kc false (sdl_on_key initial_globals true) [key_down 233]).calls =
        [{ key := 233, type := .KEY_PRESSED, held_time := 0 }]) := by
  have h1 : get_keycode kc true (-1) = -1 := by
    simp [get_keycode, to_char, SDLK_LEFT, SDLK_UP, SDLK_RIGHT, SDLK_DOWN, SDLK_SPACE, SDLK_q]
  have h2 : get_keycode kc false 233 = 233 := by
    simp [get_keycode, to_char, SDLK_LEFT, SDLK_UP, SDLK_RIGHT, SDLK_DOWN, SDLK_SPACE, SDLK_q]
  refine ⟨⟨by decide, h1, ?_⟩, ⟨by decide, h2, ?_⟩⟩
  · rw [sdl_is_done_key kc true _ (key_down (-1)) [] (Or.inl rfl) rfl
      (by simp [key_down, h1])]
    simp [key_down, h1, sdl_is_done_nil, sdl_on_key, MS_PER_S]
  · rw [sdl_is_done_key kc false _ (key_down 233) [] (Or.inl rfl) rfl
      (by simp [key_down, h2])]
    simp [key_down, h2, sdl_is_done_nil, sdl_on_key, MS_PER_S]


/-! ## The renderer -/

theorem sdl_draw_polygon_of_drawable (g : sdl_globals) (width height : ℤ) (body : body_t)
    (h : drawable body) :
    sdl_draw_polygon g width height body.shape body.color =
      .ok (body_fill g width height body) := by
  unfold sdl_draw_polygon body_fill
  unfold drawable at h
  simp only
  rw [if_pos h]

theorem draw_bodies_of_drawable (g : sdl_globals) (width height : ℤ) (bodies : List body_t)
    (h : ∀ body ∈ bodies, drawable body) :
    draw_bodies g width height bodies = .ok (bodies.map (body_fill g width height)) := by
  induction bodies with
  | nil => rfl
  | cons body rest ih =>
    have hb := h body (List.mem_cons_self _ _)
    have hr := ih (fun x hx => h x (List.mem_cons_of_mem _ hx))
    simp only [draw_bodies, sdl_draw_polygon_of_drawable g width height body hb, hr,
      List.map_cons]

theorem flaps_label_playing (scene : scene_t) (h : scene.points < 10 ^ 9) :
    flaps_label 10 scene = .ok ("Flaps: " ++ Nat.repr scene.points) := by
  have hlen : (Nat.repr scene.points).length ≤ 9 :=
    Nat.repr_length scene.points 9 (by decide) h
  unfold flaps_label sprintf_zu
  rw [if_pos (by omega)]
  simp only
  unfold strcat
  have h7 : "Flaps: ".length = 7 := by decide
  rw [if_pos (by rw [h7]; omega)]

/-- The playing branch on the inputs where its buffers suffice: for a scene in
state 0 whose background elements and bodies are drawable and whose points are
below 10^9, `sdl_render_scene` clears the screen (twice), fills the background
elements in index order, then the bodies in index order, each with its shape
and color, draws the label `"Flaps: "` followed by the points in decimal, and
ends with `sdl_show`; the fills number `b + n`. -/
theorem sdl_render_scene_playing (rainbows : ℤ → rgb_color_t) (g : sdl_globals)
    (width height : ℤ) (scene : scene_t) (hstate : scene.state = 0)
    (hbg : ∀ body ∈ scene.background_elements, drawable body)
    (hbodies : ∀ body ∈ scene.bodies, drawable body)
    (hpoints : scene.points < 10 ^ 9) :
    sdl_render_scene rainbows g width height scene =
        .ok (sdl_clear ++
          (sdl_clear ++ scene.background_elements.map (body_fill g width height) ++
            scene.bodies.map (body_fill g width height) ++
            [.point_display ("Flaps: " ++ Nat.repr scene.points)]) ++
          sdl_show g width height) ∧
    (scene.background_elements.map (body_fill g width height) ++
        scene.bodies.map (body_fill g width height)).length =
      scene.background_elements.length + scene.bodies.length := by
  constructor
  · unfold sdl_render_scene
    simp only [hstate]
    norm_num
    unfold render_playing
    rw [draw_bodies_of_drawable g width height _ hbg,
      draw_bodies_of_drawable g width height _ hbodies, flaps_label_playing scene hpoints]
    simp
  · simp

/-- C10, evaluated where the code departs from it: for a playing scene with
1000000000 points the ten digits and the terminating NUL do not fit the buffer
`score_str[10]` of the playing branch, so `sprintf` writes past its end and no
label and no frame is produced; the 50-byte `score_str` of the other branches
holds the same label. -/
theorem playing_score_buffer_overflow (rainbows : ℤ → rgb_color_t) (g : sdl_globals)
    (width height : ℤ) :
    billion_flaps.state = 0 ∧
    sdl_render_scene rainbows g width height billion_flaps = .error .buffer_overflow ∧
    flaps_label 50 billion_flaps = .ok "Flaps: 1000000000" := by
  have hrepr : Nat.repr 1000000000 = "1000000000" := by decide
  have hlen : "1000000000".length = 10 := by decide
  have hflaps : "Flaps: ".length = 7 := by decide
  have hcat : "Flaps: " ++ "1000000000" = "Flaps: 1000000000" := by decide
  refine ⟨rfl, ?_, ?_⟩
  · unfold sdl_render_scene
    simp only [billion_flaps]
    norm_num
    simp [render_playing, draw_bodies, flaps_label, sprintf_zu, hrepr, hlen]
  · simp [flaps_label, sprintf_zu, strcat, billion_flaps, hrepr, hlen, hflaps, hcat]

end SdlWrapper
